import Mathlib

/-!
# ExamGen static scripts: `import.js` and `js/ui.js`

A shallow embedding of the two browser scripts of `examgen_web/static`:

* `import.js` installs a `change` handler on every `select.col-map` control that
  mirrors the control's value into the element named by `data-target`;
* `js/ui.js` schedules the removal of every `.toast` element and installs a
  `click` handler on every `.skip-link` that focuses the element named by `href`.

The document is an ordered forest of nodes.  Every element carries an identity
`nid`, which plays the role of the JavaScript object reference: handlers and
timers keep the identity of the element they captured, and mutate the document
through it.  Strings are sequences of characters; a character stands for one
UTF-16 code unit, which is exact for text of the Basic Multilingual Plane.

The browser functions the scripts call are embedded with the behaviour the DOM,
HTML, Web IDL and ECMAScript standards give them: `getElementById` converts its
argument to a string, `parseInt` returns a double or `NaN`, `setTimeout` converts
its delay to a 32-bit integer, `remove` detaches a whole subtree, and `focus`
does nothing on an element that cannot take the focus.  Time is a virtual clock
in milliseconds that starts when `js/ui.js` runs.
-/

namespace ExamGen

/-! ## Document model -/

/-- Attributes of an element in source order, as (name, value) pairs. -/
abbrev Attrs := List (String × String)

/-- An ordered list of sibling nodes (first child / next sibling encoding of the
DOM tree).  `text d next` is a text node followed by its later siblings,
`elem nid tag attrs children next` an element followed by its later siblings. -/
inductive Forest where
  | nil : Forest
  | text (data : String) (next : Forest) : Forest
  | elem (nid : Nat) (tag : String) (attrs : Attrs) (children : Forest) (next : Forest) : Forest
  deriving DecidableEq, Repr

/-- An element taken on its own: identity, tag name, attributes and child nodes. -/
structure Element where
  nid : Nat
  tag : String
  attrs : Attrs
  children : Forest
  deriving DecidableEq, Repr

/-- Value of the first attribute called `name`; `none` is JavaScript `null`. -/
def getAttr : Attrs → String → Option String
  | [], _ => none
  | (n, v) :: rest, name => if n = name then some v else getAttr rest name

/-- Attribute list after `setAttribute(name, value)`: the existing attribute is
overwritten in place, a new one is appended. -/
def setAttr : Attrs → String → String → Attrs
  | [], name, value => [(name, value)]
  | (n, v) :: rest, name, value =>
    if n = name then (n, value) :: rest else (n, v) :: setAttr rest name value

/-- `e.getAttribute(name)`. -/
def Element.getAttribute (e : Element) (name : String) : Option String :=
  getAttr e.attrs name

/-- `e.setAttribute(name, value)`. -/
def Element.setAttribute (name value : String) (e : Element) : Element :=
  { e with attrs := setAttr e.attrs name value }

/-- `e.dataset[prop]` for a lower-case property name: the `data-prop` attribute,
`none` (JavaScript `undefined`) when the attribute is absent. -/
def Element.dataset (e : Element) (prop : String) : Option String :=
  getAttr e.attrs ("data-" ++ prop)

/-- Identities of all elements of the forest, in tree order. -/
def Forest.nids : Forest → List Nat
  | .nil => []
  | .text _ next => next.nids
  | .elem n _ _ c next => n :: (c.nids ++ next.nids)

/-- Node identities are pairwise distinct, as object references are. -/
def Forest.WellFormed (doc : Forest) : Prop := doc.nids.Nodup

instance (doc : Forest) : Decidable doc.WellFormed :=
  inferInstanceAs (Decidable doc.nids.Nodup)

/-- All elements of the forest in tree order (each with its subtree). -/
def Forest.elements : Forest → List Element
  | .nil => []
  | .text _ next => next.elements
  | .elem n tag attrs c next => ⟨n, tag, attrs, c⟩ :: (c.elements ++ next.elements)

/-- The element is connected: an element with identity `k` is in the document. -/
def Forest.inDocument (doc : Forest) (k : Nat) : Bool := decide (k ∈ doc.nids)

/-- `document.getElementById(key)`: the first element in tree order whose `id`
attribute is `key`; an empty `id` never identifies an element. -/
def Forest.getElementById (key : String) : Forest → Option Element
  | .nil => none
  | .text _ next => next.getElementById key
  | .elem n tag attrs c next =>
    if getAttr attrs "id" = some key ∧ key ≠ "" then some ⟨n, tag, attrs, c⟩
    else
      match c.getElementById key with
      | some e => some e
      | none => next.getElementById key

/-- The `textContent` getter of a list of child nodes: the concatenation of the
data of all text nodes below, in tree order. -/
def Forest.textContent : Forest → String
  | .nil => ""
  | .text d next => d ++ next.textContent
  | .elem _ _ _ c next => c.textContent ++ next.textContent

/-- The `textContent` getter of an element. -/
def Element.textContent (e : Element) : String := e.children.textContent

/-- The `textContent` setter.  `null` and `undefined` (here `none`) are treated as
the empty string; all children are replaced by a single text node, or by nothing
when the string is empty. -/
def Element.setTextContent (v : Option String) (e : Element) : Element :=
  match v with
  | none => { e with children := .nil }
  | some s => { e with children := if s = "" then .nil else .text s .nil }

/-- Mutation through a reference: `f` is applied to the element of identity `k`. -/
def Forest.update (k : Nat) (f : Element → Element) : Forest → Forest
  | .nil => .nil
  | .text d next => .text d (next.update k f)
  | .elem n tag attrs c next =>
    let e : Element := ⟨n, tag, attrs, c.update k f⟩
    let e1 : Element := if n = k then f e else e
    .elem e1.nid e1.tag e1.attrs e1.children (next.update k f)

/-- Same as `t.remove()` for the element of identity `k`: the element and its whole
subtree leave the document.  Nothing happens when it is not in the document. -/
def Forest.remove (k : Nat) : Forest → Forest
  | .nil => .nil
  | .text d next => .text d (next.remove k)
  | .elem n tag attrs c next =>
    if n = k then next.remove k else .elem n tag attrs (c.remove k) (next.remove k)

/-- Some element of identity `j` is the element `k` itself or one of its ancestors. -/
def Forest.isInclusiveAncestor (j k : Nat) : Forest → Bool
  | .nil => false
  | .text _ next => next.isInclusiveAncestor j k
  | .elem n _ _ c next =>
    (decide (n = j) && (decide (n = k) || decide (k ∈ c.nids)))
      || c.isInclusiveAncestor j k || next.isInclusiveAncestor j k

/-! ## Selectors -/

/-- ASCII whitespace, the separator of class names. -/
def isAsciiWhitespace (c : Char) : Bool :=
  c = ' ' || c = '\t' || c = '\n' || c = '\x0c' || c = '\r'

/-- Splits a character list at every ASCII whitespace character. -/
def splitOnWhitespace : List Char → List (List Char)
  | [] => [[]]
  | c :: cs =>
    if isAsciiWhitespace c then [] :: splitOnWhitespace cs
    else
      match splitOnWhitespace cs with
      | [] => [[c]]
      | t :: ts => (c :: t) :: ts

/-- The element matches the class selector `.cls`: `cls` is one of the
whitespace-separated names of its `class` attribute (compared exactly, as in a
document that is not in quirks mode). -/
def Element.hasClass (e : Element) (cls : String) : Bool :=
  match getAttr e.attrs "class" with
  | none => false
  | some v => decide (cls.data ≠ [] ∧ cls.data ∈ splitOnWhitespace v.data)

/-- `document.querySelectorAll` for a selector given as a predicate: all matching
elements in tree order. -/
def Forest.querySelectorAll (doc : Forest) (sel : Element → Bool) : List Element :=
  doc.elements.filter sel

/-- Selector `.toast`. -/
def isToast (e : Element) : Bool := e.hasClass "toast"

/-- Selector `.skip-link`. -/
def isSkipLink (e : Element) : Bool := e.hasClass "skip-link"

/-! ## JavaScript values -/

/-- Exceptions a handler can raise. -/
inductive JSError where
  | typeError : JSError
  deriving DecidableEq, Repr

deriving instance DecidableEq for Except

/-- Conversion of an argument to a DOM string: `undefined` becomes the string
"undefined". -/
def toDOMString : Option String → String
  | some s => s
  | none => "undefined"

/-- Operator `a || b` on values that are a string or `undefined`/`null`: the empty
string, `null` and `undefined` are falsy. -/
def jsOr (a b : Option String) : Option String :=
  match a with
  | none => b
  | some s => if s = "" then b else some s

/-! ## `import.js` -/

/-- The `change` listener of `import.js`, run for the control `sel` whose current
`value` is `value`:

    const target = document.getElementById(sel.dataset.target);
    if (target) { target.textContent = sel.value || target.dataset.original; }
-/
def colMapChange (doc : Forest) (sel : Element) (value : String) : Except JSError Forest :=
  match doc.getElementById (toDOMString (sel.dataset "target")) with
  | none => .ok doc
  | some target =>
    .ok (doc.update target.nid
      (Element.setTextContent (jsOr (some value) (target.dataset "original"))))

/-! ## Numbers -/

/-- The JavaScript numbers that `parseInt` can return: `NaN`, a signed integer
(`finite true 0` is the negative zero) or a signed infinity.  The magnitude of a
finite number is an integer that a double represents exactly. -/
inductive JSNumber where
  | nan : JSNumber
  | finite (negative : Bool) (magnitude : Nat) : JSNumber
  | infinity (negative : Bool) : JSNumber
  deriving DecidableEq, Repr

/-- Number of binary digits of `n`, computed with `fuel` halvings at most. -/
def bitLengthAux : Nat → Nat → Nat
  | 0, _ => 0
  | fuel + 1, n => if n = 0 then 0 else bitLengthAux fuel (n / 2) + 1

/-- Number of binary digits of `n`. -/
def bitLength (n : Nat) : Nat := bitLengthAux n n

/-- The double nearest to the natural number `n` (round to nearest, ties to even):
`none` when `n` rounds to infinity.  Below `2 ^ 53` every natural number is a double. -/
def toDouble (n : Nat) : Option Nat :=
  let e := bitLength n - 53
  let q := n / 2 ^ e
  let r := n % 2 ^ e
  let q1 := if 2 ^ e < 2 * r ∨ (2 * r = 2 ^ e ∧ q % 2 = 1) then q + 1 else q
  if bitLength (q1 * 2 ^ e) ≤ 1024 then some (q1 * 2 ^ e) else none

/-- White space and line terminators that `parseInt` skips at the start of its input. -/
def isStrWhiteSpace (c : Char) : Bool :=
  let n := c.toNat
  n = 0x09 || n = 0x0A || n = 0x0B || n = 0x0C || n = 0x0D || n = 0x20 || n = 0xA0
    || n = 0x1680 || (0x2000 ≤ n && n ≤ 0x200A) || n = 0x2028 || n = 0x2029
    || n = 0x202F || n = 0x205F || n = 0x3000 || n = 0xFEFF

/-- The character is one of the decimal digits `0` to `9`. -/
def isDecimalDigit (c : Char) : Bool := decide (48 ≤ c.toNat) && decide (c.toNat ≤ 57)

/-- Value of a decimal digit character. -/
def digitValue (c : Char) : Nat := c.toNat - 48

/-- Value of a string of decimal digits, most significant digit first. -/
def decimalValue (ds : List Char) : Nat :=
  ds.foldl (fun acc c => 10 * acc + digitValue c) 0

/-- The number value of the natural number `n` with the given sign. -/
def JSNumber.ofNat (negative : Bool) (n : Nat) : JSNumber :=
  match toDouble n with
  | some m => .finite negative m
  | none => .infinity negative

/-- The global `parseInt(s, 10)`: leading white space is skipped, one sign is
accepted, then the longest run of decimal digits is read; the result is `NaN`
when that run is empty, and the number value of the integer it denotes
otherwise. -/
def parseInt (s : String) : JSNumber :=
  let trimmed := s.data.dropWhile isStrWhiteSpace
  let negative := decide (trimmed.head? = some '-')
  let unsigned :=
    match trimmed with
    | [] => []
    | c :: rest => if c = '+' ∨ c = '-' then rest else c :: rest
  let z := unsigned.takeWhile isDecimalDigit
  if z = [] then .nan else JSNumber.ofNat negative (decimalValue z)

/-- The delay in milliseconds that `setTimeout(handler, x)` waits for.  The
argument is converted to a 32-bit signed integer (`NaN` and the infinities become
0, other values wrap modulo `2 ^ 32`), and a negative result counts as 0. -/
def timerDelay : JSNumber → Nat
  | .nan => 0
  | .infinity _ => 0
  | .finite negative m =>
    let u := if negative then (2 ^ 32 - m % 2 ^ 32) % 2 ^ 32 else m % 2 ^ 32
    if u < 2 ^ 31 then u else 0

/-! ## `js/ui.js` -/

/-- The delay computed for a toast:

    var delay=parseInt(t.getAttribute('data-timeout')||'4000',10);
-/
def toastDelay (t : Element) : JSNumber :=
  parseInt (toDOMString (jsOr (t.getAttribute "data-timeout") (some "4000")))

/-- A pending `setTimeout(function(){t.remove();}, delay)`: the virtual time in
milliseconds at which it is due and the identity of the element `t` it removes. -/
structure Timer where
  due : Nat
  target : Nat
  deriving DecidableEq, Repr

/-- The timers registered by the script, run at virtual time 0, in registration
order: one per element of `document.querySelectorAll('.toast')`. -/
def toastTimers (doc : Forest) : List Timer :=
  (doc.querySelectorAll isToast).map fun t => ⟨timerDelay (toastDelay t), t.nid⟩

/-- Runs the callbacks of the given timers one after the other. -/
def runTimers (doc : Forest) (ts : List Timer) : Forest :=
  ts.foldl (fun d t => d.remove t.target) doc

/-- The timers that have fired when the virtual clock shows `now`: those due by
then, earliest first, and in registration order among equal delays. -/
def firedTimers (ts : List Timer) (now : Nat) : List Timer :=
  (ts.filter fun t => decide (t.due ≤ now)).insertionSort fun a b => a.due ≤ b.due

/-- The document at virtual time `now` milliseconds after the script has run on
`doc`, when nothing but the script's timers touches the document. -/
def docAt (doc : Forest) (now : Nat) : Forest :=
  runTimers doc (firedTimers (toastTimers doc) now)

/-- The page state the `click` handler works on: the document, the identity of
`document.activeElement` (`none` when no element has the focus), and the
identities of the elements that the user agent does not let take the focus even
when they carry a `tabindex` attribute: elements that are not rendered
(`hidden`, `display: none`), disabled form controls, inert elements.  The last
field is state of the user agent that the tree alone does not determine. -/
structure Page where
  doc : Forest
  activeElement : Option Nat
  unfocusable : List Nat
  deriving DecidableEq, Repr

/-- `el.focus()` for the element of identity `k`, which carries a `tabindex`
attribute: it becomes the active element if it can take the focus; the call does
nothing (and does not throw) on an element that is not focusable. -/
def Page.focus (page : Page) (k : Nat) : Page :=
  if k ∈ page.unfocusable then page else { page with activeElement := some k }

/-- `s.slice(1)`: the string without its first character. -/
def slice1 (s : String) : String := ⟨s.data.drop 1⟩

/-- The identifier the `click` handler looks up for a link whose `href` attribute
is `href`: `href.slice(1)`. -/
def skipLinkTargetId (href : String) : String := slice1 href

/-- The `click` listener of `js/ui.js`, run for the link `sk`:

    var id=this.getAttribute('href').slice(1);
    var el=document.getElementById(id);
    if(el){el.setAttribute('tabindex','-1');el.focus();}

Calling `slice` on `null` raises a `TypeError`. -/
def skipLinkClick (page : Page) (sk : Element) : Except JSError Page :=
  match sk.getAttribute "href" with
  | none => .error .typeError
  | some href =>
    match page.doc.getElementById (skipLinkTargetId href) with
    | none => .ok page
    | some el =>
      .ok (Page.focus
        { page with doc := page.doc.update el.nid (Element.setAttribute "tabindex" "-1") }
        el.nid)

/-! ## Example documents -/

/-- A column-mapping control with its label:
`<select class="col-map" data-target="lbl"></select>`. -/
def selWithTarget : Element := ⟨1, "select", [("class", "col-map"), ("data-target", "lbl")], .nil⟩

/-- The document
`<select class="col-map" data-target="lbl"></select><b id="lbl" data-original="Name">Old</b>`. -/
def docColMap : Forest :=
  .elem 1 "select" [("class", "col-map"), ("data-target", "lbl")] .nil
    (.elem 2 "b" [("id", "lbl"), ("data-original", "Name")] (.text "Old" .nil) .nil)

/-- A toast `<div class="toast" data-timeout="...">` or `<div class="toast">` with
the given identity and children. -/
def toastElement (nid : Nat) (timeout : Option String) (children : Forest) : Element :=
  match timeout with
  | some s => ⟨nid, "div", [("class", "toast"), ("data-timeout", s)], children⟩
  | none => ⟨nid, "div", [("class", "toast")], children⟩

/-- The document made of the single element `e`. -/
def docOf (e : Element) : Forest := .elem e.nid e.tag e.attrs e.children .nil

/-- The toast `<div class="toast" data-timeout="1000">Saved</div>`. -/
def toast1000 : Element := toastElement 1 (some "1000") (.text "Saved" .nil)

/-- The toast `<div class="toast" data-timeout="2147483648">Saved</div>`. -/
def toastOverflow : Element := toastElement 1 (some "2147483648") (.text "Saved" .nil)

/-- The toast `<div class="toast" data-timeout="abc">Saved</div>`. -/
def toastAbc : Element := toastElement 1 (some "abc") (.text "Saved" .nil)

/-- The toast `<div class="toast" data-timeout="12abc">Saved</div>`. -/
def toast12abc : Element := toastElement 1 (some "12abc") (.text "Saved" .nil)

/-- The toast `<div class="toast" data-timeout="9007199254740993abc">Saved</div>`;
the digit prefix is `2 ^ 53 + 1`. -/
def toastHuge : Element := toastElement 1 (some "9007199254740993abc") (.text "Saved" .nil)

/-- The toast `<div class="toast">Saved</div>`. -/
def toastDefault : Element := toastElement 1 none (.text "Saved" .nil)

/-- The inner toast `<div class="toast">Saved</div>` of `toastOuter`. -/
def toastInner : Element := toastElement 2 none (.text "Saved" .nil)

/-- The toast
`<div class="toast" data-timeout="1000"><div class="toast">Saved</div></div>`. -/
def toastOuter : Element := toastElement 1 (some "1000") (docOf toastInner)

/-- The inner toast `<div class="toast" data-timeout="1000">Saved</div>` of
`toastOuter500`. -/
def toastInner1000 : Element := toastElement 2 (some "1000") (.text "Saved" .nil)

/-- The toast `<div class="toast" data-timeout="500"><div class="toast"
data-timeout="1000">Saved</div></div>`. -/
def toastOuter500 : Element := toastElement 1 (some "500") (docOf toastInner1000)

/-- A page `<a class="skip-link" ...>Skip</a><main id="main"></main>` on which no
element has the focus and every element can take it; `linkAttrs` are the further
attributes of the link. -/
def skipPage (linkAttrs : Attrs) : Page :=
  { doc := .elem 1 "a" (("class", "skip-link") :: linkAttrs) (.text "Skip" .nil)
      (.elem 2 "main" [("id", "main")] .nil .nil),
    activeElement := none,
    unfocusable := [] }

/-- The skip link of `skipPage linkAttrs`. -/
def skipLink (linkAttrs : Attrs) : Element :=
  ⟨1, "a", ("class", "skip-link") :: linkAttrs, .text "Skip" .nil⟩

/-- The page `<a class="skip-link" href="#main">Skip</a><main id="main" hidden></main>`
with the focus on the link: the target is not rendered, so it cannot take the
focus. -/
def skipPageHidden : Page :=
  { doc := .elem 1 "a" [("class", "skip-link"), ("href", "#main")] (.text "Skip" .nil)
      (.elem 2 "main" [("id", "main"), ("hidden", "")] .nil .nil),
    activeElement := some 1,
    unfocusable := [2] }

/-! ## Lemmas on the document model -/

theorem Forest.getElementById_nid_mem (key : String) (doc : Forest) (e : Element)
    (h : doc.getElementById key = some e) : e.nid ∈ doc.nids := by
  induction doc with
  | nil => simp [Forest.getElementById] at h
  | text d next ih => exact ih h
  | elem n tag attrs c next ihc ihn =>
    simp only [Forest.getElementById] at h
    simp only [Forest.nids, List.mem_cons, List.mem_append]
    split at h
    · cases h; exact Or.inl rfl
    · split at h
      · next e1 he1 => cases h; exact Or.inr (Or.inl (ihc he1))
      · exact Or.inr (Or.inr (ihn h))

theorem Forest.update_of_not_mem (k : Nat) (f : Element → Element) (doc : Forest)
    (h : k ∉ doc.nids) : doc.update k f = doc := by
  induction doc with
  | nil => rfl
  | text d next ih => simp only [Forest.update]; rw [ih h]
  | elem n tag attrs c next ihc ihn =>
    simp only [Forest.nids, List.mem_cons, List.mem_append, not_or] at h
    obtain ⟨h1, h2, h3⟩ := h
    have hne : ¬ n = k := fun hk => h1 hk.symm
    simp only [Forest.update, if_neg hne, ihc h2, ihn h3]

theorem Forest.getElementById_update (key : String) (f : Element → Element)
    (hf : ∀ e, getAttr (f e).attrs "id" = getAttr e.attrs "id")
    (doc : Forest) (hwf : doc.WellFormed) (T : Element)
    (h : doc.getElementById key = some T) :
    (doc.update T.nid f).getElementById key = some (f T) := by
  induction doc with
  | nil => simp [Forest.getElementById] at h
  | text d next ih => exact ih hwf h
  | elem n tag attrs c next ihc ihn =>
    unfold Forest.WellFormed at hwf ihc ihn
    simp only [Forest.nids, List.nodup_cons, List.mem_append, not_or, List.nodup_append] at hwf
    obtain ⟨⟨hnc, hnn⟩, hc, hnx, hdisj⟩ := hwf
    simp only [Forest.getElementById] at h
    split at h
    · next hcond =>
      cases h
      have hcond1 : getAttr (f ⟨n, tag, attrs, c⟩).attrs "id" = some key ∧ key ≠ "" := by
        rw [hf]; exact hcond
      simp only [Forest.update, if_true, Forest.update_of_not_mem n f c hnc]
      simp only [Forest.getElementById, if_pos hcond1]
    · next hcond =>
      split at h
      · next e1 he1 =>
        cases h
        have hm := Forest.getElementById_nid_mem key c _ he1
        have hne : ¬ n = T.nid := fun hk => hnc (hk ▸ hm)
        simp only [Forest.update, if_neg hne, Forest.getElementById, if_neg hcond, ihc hc he1]
      · next hnone =>
        have hm := Forest.getElementById_nid_mem key next _ h
        have hne : ¬ n = T.nid := fun hk => hnn (hk ▸ hm)
        have hnc1 : T.nid ∉ c.nids := fun hk => hdisj hk hm
        simp only [Forest.update, if_neg hne, Forest.getElementById, if_neg hcond,
          Forest.update_of_not_mem T.nid f c hnc1, hnone, ihn hnx h]

/-- No element carries the id: `getElementById` returns `null`. -/
theorem Forest.getElementById_eq_none (key : String) (doc : Forest)
    (h : ∀ e ∈ doc.elements, getAttr e.attrs "id" ≠ some key) :
    doc.getElementById key = none := by
  induction doc with
  | nil => rfl
  | text d next ih => exact ih h
  | elem n tag attrs c next ihc ihn =>
    simp only [Forest.elements, List.mem_cons, List.mem_append] at h
    have h0 : ¬ (getAttr attrs "id" = some key ∧ key ≠ "") :=
      fun hc => h ⟨n, tag, attrs, c⟩ (Or.inl rfl) hc.1
    simp only [Forest.getElementById, if_neg h0, ihc (fun e he => h e (Or.inr (Or.inl he))),
      ihn (fun e he => h e (Or.inr (Or.inr he)))]

/-- Some element carries the non-empty id: `getElementById` returns an element of
the document with that id. -/
theorem Forest.getElementById_isSome (key : String) (hkey : key ≠ "") (doc : Forest)
    (h : ∃ e ∈ doc.elements, getAttr e.attrs "id" = some key) :
    ∃ el, doc.getElementById key = some el ∧ el ∈ doc.elements ∧
      getAttr el.attrs "id" = some key := by
  induction doc with
  | nil => obtain ⟨e, he, _⟩ := h; simp [Forest.elements] at he
  | text d next ih => exact ih h
  | elem n tag attrs c next ihc ihn =>
    by_cases h0 : getAttr attrs "id" = some key ∧ key ≠ ""
    · refine ⟨⟨n, tag, attrs, c⟩, ?_, ?_, h0.1⟩
      · simp only [Forest.getElementById, if_pos h0]
      · simp [Forest.elements]
    · have hself : getAttr attrs "id" ≠ some key := fun hc => h0 ⟨hc, hkey⟩
      obtain ⟨e, he, hid⟩ := h
      simp only [Forest.elements, List.mem_cons, List.mem_append] at he
      cases hc : c.getElementById key with
      | some el =>
        obtain ⟨el1, hel1, hmem, hid1⟩ : ∃ el, c.getElementById key = some el ∧ el ∈ c.elements ∧
            getAttr el.attrs "id" = some key := by
          by_cases hex : ∃ e ∈ c.elements, getAttr e.attrs "id" = some key
          · exact ihc hex
          · exfalso
            have := Forest.getElementById_eq_none key c (fun e he hid => hex ⟨e, he, hid⟩)
            rw [this] at hc
            exact Option.noConfusion hc
        refine ⟨el1, ?_, ?_, hid1⟩
        · simp only [Forest.getElementById, if_neg h0, hel1]
        · simp only [Forest.elements, List.mem_cons, List.mem_append]
          exact Or.inr (Or.inl hmem)
      | none =>
        have hnext : ∃ e ∈ next.elements, getAttr e.attrs "id" = some key := by
          rcases he with he | he | he
          · subst he; exact absurd hid hself
          · exfalso
            obtain ⟨el, hel, _, _⟩ := ihc ⟨e, he, hid⟩
            rw [hel] at hc
            exact Option.noConfusion hc
          · exact ⟨e, he, hid⟩
        obtain ⟨el, hel, hmem, hid1⟩ := ihn hnext
        refine ⟨el, ?_, ?_, hid1⟩
        · simp only [Forest.getElementById, if_neg h0, hc, hel]
        · simp only [Forest.elements, List.mem_cons, List.mem_append]
          exact Or.inr (Or.inr hmem)

theorem getAttr_setAttr_self (attrs : Attrs) (name value : String) :
    getAttr (setAttr attrs name value) name = some value := by
  induction attrs with
  | nil => simp [setAttr, getAttr]
  | cons a rest ih =>
    obtain ⟨n, v⟩ := a
    by_cases h : n = name
    · simp [setAttr, getAttr, h]
    · simp [setAttr, getAttr, h, ih]

theorem getAttr_setAttr_of_ne (attrs : Attrs) (name value other : String) (hne : name ≠ other) :
    getAttr (setAttr attrs name value) other = getAttr attrs other := by
  induction attrs with
  | nil => simp [setAttr, getAttr, hne]
  | cons a rest ih =>
    obtain ⟨n, v⟩ := a
    by_cases h : n = name
    · subst h; simp [setAttr, getAttr, hne]
    · by_cases h2 : n = other
      · simp only [setAttr, if_neg h, getAttr, if_pos h2]
      · simp only [setAttr, if_neg h, getAttr, if_neg h2, ih]

/-- Updating attributes only (children and the `id` attribute are kept) commutes
with `getElementById`, whatever the identities in the document are. -/
theorem Forest.getElementById_update_attrs (key : String) (k : Nat) (f : Element → Element)
    (hid : ∀ e, getAttr (f e).attrs "id" = getAttr e.attrs "id")
    (hch : ∀ e, (f e).children = e.children) (doc : Forest) :
    (doc.update k f).getElementById key =
      (doc.getElementById key).map fun e =>
        if e.nid = k then f ⟨e.nid, e.tag, e.attrs, e.children.update k f⟩
        else ⟨e.nid, e.tag, e.attrs, e.children.update k f⟩ := by
  induction doc with
  | nil => rfl
  | text d next ih => exact ih
  | elem n tag attrs c next ihc ihn =>
    by_cases hcond : getAttr attrs "id" = some key ∧ key ≠ ""
    · by_cases hn : n = k
      · have hcond1 : getAttr (f ⟨n, tag, attrs, c.update k f⟩).attrs "id" = some key ∧ key ≠ "" := by
          rw [hid]; exact hcond
        simp only [Forest.update, if_pos hn, Forest.getElementById, if_pos hcond1, if_pos hcond,
          Option.map_some']
      · simp only [Forest.update, if_neg hn, Forest.getElementById, if_pos hcond, Option.map_some']
    · by_cases hn : n = k
      · have hcond1 : ¬ (getAttr (f ⟨n, tag, attrs, c.update k f⟩).attrs "id" = some key ∧ key ≠ "") := by
          rw [hid]; exact hcond
        simp only [Forest.update, if_pos hn, Forest.getElementById, if_neg hcond1, if_neg hcond,
          hch, ihc, ihn]
        cases c.getElementById key <;> simp
      · simp only [Forest.update, if_neg hn, Forest.getElementById, if_neg hcond, ihc, ihn]
        cases c.getElementById key <;> simp

theorem skipLinkTargetId_hash (x : String) : skipLinkTargetId ("#" ++ x) = x := by
  simp [skipLinkTargetId, slice1, String.data_append]

/-! ## Lemmas on numbers and parsing -/

theorem bitLengthAux_le (fuel : Nat) : ∀ n k : Nat, n < 2 ^ k → bitLengthAux fuel n ≤ k := by
  induction fuel with
  | zero => intro n k _; simp [bitLengthAux]
  | succ fuel ih =>
    intro n k h
    simp only [bitLengthAux]
    split
    · exact Nat.zero_le _
    · next hn =>
      cases k with
      | zero => simp at h; exact absurd h hn
      | succ k =>
        have h2 : n / 2 < 2 ^ k := by
          rw [Nat.div_lt_iff_lt_mul (by decide)]
          rw [pow_succ] at h
          exact h
        exact Nat.succ_le_succ (ih _ _ h2)

theorem toDouble_of_lt (n : Nat) (h : n < 2 ^ 53) : toDouble n = some n := by
  have h1 : bitLength n ≤ 53 := bitLengthAux_le n n 53 h
  have h2 : bitLength n - 53 = 0 := Nat.sub_eq_zero_of_le h1
  have h3 : bitLength n ≤ 1024 := le_trans h1 (by decide)
  simp only [toDouble, h2, pow_zero, Nat.mod_one, Nat.div_one, Nat.mul_zero, Nat.mul_one]
  simp [h3]

theorem JSNumber.ofNat_of_lt (negative : Bool) (n : Nat) (h : n < 2 ^ 53) :
    JSNumber.ofNat negative n = .finite negative n := by
  unfold JSNumber.ofNat
  rw [toDouble_of_lt n h]

theorem timerDelay_lt (x : JSNumber) : timerDelay x < 2 ^ 31 := by
  cases x with
  | nan => simp [timerDelay]
  | infinity s => simp [timerDelay]
  | finite s m =>
    simp only [timerDelay]
    split_ifs <;> first | assumption | exact Nat.two_pow_pos 31

theorem timerDelay_finite (m : Nat) (h : m < 2 ^ 31) : timerDelay (.finite false m) = m := by
  have h1 : m % 2 ^ 32 = m := Nat.mod_eq_of_lt (lt_trans h (by decide))
  simp only [timerDelay, Bool.false_eq_true, if_false, h1, if_pos h]

theorem timerDelay_ofNat (n : Nat) (h : n < 2 ^ 31) :
    timerDelay (JSNumber.ofNat false n) = n := by
  rw [JSNumber.ofNat_of_lt false n (lt_trans h (by decide)), timerDelay_finite n h]

theorem isStrWhiteSpace_of_digit (c : Char) (h : isDecimalDigit c = true) :
    isStrWhiteSpace c = false := by
  simp only [isDecimalDigit, Bool.and_eq_true, decide_eq_true_eq] at h
  simp only [isStrWhiteSpace, Bool.or_eq_false_iff, decide_eq_false_iff_not, Bool.and_eq_false_imp,
    decide_eq_true_eq]
  omega

theorem not_sign_of_digit (c : Char) (h : isDecimalDigit c = true) : ¬ (c = '+' ∨ c = '-') := by
  rintro (rfl | rfl) <;> simp [isDecimalDigit] at h

theorem takeWhile_digits (ds rest : List Char) (hds : ∀ c ∈ ds, isDecimalDigit c = true)
    (hrest : ∀ c, rest.head? = some c → isDecimalDigit c = false) :
    (ds ++ rest).takeWhile isDecimalDigit = ds := by
  induction ds with
  | nil =>
    cases rest with
    | nil => rfl
    | cons c cs => simp [List.takeWhile, hrest c rfl]
  | cons d ds ih =>
    have hd := hds d (List.mem_cons_self _ _)
    rw [List.cons_append, List.takeWhile_cons, hd, ih (fun c hc => hds c (List.mem_cons_of_mem _ hc))]
    rfl

/-- Lenient parsing: `parseInt` reads a non-empty digit prefix and ignores what
follows it. -/
theorem parseInt_digit_prefix (ds rest : List Char) (hne : ds ≠ [])
    (hds : ∀ c ∈ ds, isDecimalDigit c = true)
    (hrest : ∀ c, rest.head? = some c → isDecimalDigit c = false) :
    parseInt ⟨ds ++ rest⟩ = JSNumber.ofNat false (decimalValue ds) := by
  cases ds with
  | nil => exact absurd rfl hne
  | cons d ds =>
    have hd := hds d (List.mem_cons_self _ _)
    have hws := isStrWhiteSpace_of_digit d hd
    have hsign := not_sign_of_digit d hd
    have hminus : ¬ d = '-' := fun h => hsign (Or.inr h)
    have htw := takeWhile_digits (d :: ds) rest hds hrest
    simp only [List.cons_append] at htw
    have hdw : List.dropWhile isStrWhiteSpace (d :: (ds ++ rest)) = d :: (ds ++ rest) := by
      rw [List.dropWhile_cons, hws]; rfl
    simp only [parseInt, List.cons_append, hdw, if_neg hsign, htw, List.head?]
    simp [hminus]

theorem digitChar_spec : ∀ m, m < 10 →
    isDecimalDigit (Nat.digitChar m) = true ∧ digitValue (Nat.digitChar m) = m := by
  decide

theorem toDigitsCore_spec (fuel : Nat) : ∀ (n : Nat) (acc : List Char), n < fuel →
    ∃ l, Nat.toDigitsCore 10 fuel n acc = l ++ acc ∧ l ≠ [] ∧
      (∀ c ∈ l, isDecimalDigit c = true) ∧ decimalValue l = n := by
  induction fuel with
  | zero => intro n acc h; exact absurd h (Nat.not_lt_zero _)
  | succ fuel ih =>
    intro n acc h
    have hd := digitChar_spec (n % 10) (Nat.mod_lt _ (by decide))
    simp only [Nat.toDigitsCore]
    split
    · next h0 =>
      refine ⟨[Nat.digitChar (n % 10)], rfl, by simp, ?_, ?_⟩
      · intro c hc; simp only [List.mem_singleton] at hc; subst hc; exact hd.1
      · simp only [decimalValue, List.foldl, hd.2]
        have := Nat.div_add_mod n 10
        omega
    · next h0 =>
      have hlt : n / 10 < fuel := by omega
      obtain ⟨l, hl, _, hdig, hval⟩ := ih (n / 10) (Nat.digitChar (n % 10) :: acc) hlt
      refine ⟨l ++ [Nat.digitChar (n % 10)], by simp [hl], by simp, ?_, ?_⟩
      · intro c hc
        rcases List.mem_append.1 hc with h1 | h1
        · exact hdig c h1
        · simp only [List.mem_singleton] at h1; subst h1; exact hd.1
      · simp only [decimalValue] at hval
        simp only [decimalValue, List.foldl_append, List.foldl, hval, hd.2]
        have := Nat.div_add_mod n 10
        omega

/-- The decimal string of a natural number parses back to its number value. -/
theorem parseInt_toString (n : Nat) : parseInt (toString n) = JSNumber.ofNat false n := by
  obtain ⟨l, hl, hne, hdig, hval⟩ := toDigitsCore_spec (n + 1) n [] (Nat.lt_succ_self n)
  have h := parseInt_digit_prefix l [] hne hdig (by simp)
  have hs : toString n = ⟨l ++ []⟩ := by
    show Nat.repr n = _
    simp only [Nat.repr, Nat.toDigits, hl, List.asString]
  rw [hs, h, hval]

/-! ## Lemmas on removal and timers -/

theorem Forest.not_mem_nids_remove (k : Nat) (doc : Forest) : k ∉ (doc.remove k).nids := by
  induction doc with
  | nil => simp [Forest.remove, Forest.nids]
  | text d next ih => exact ih
  | elem n tag attrs c next ihc ihn =>
    by_cases h : n = k
    · simp only [Forest.remove, if_pos h]; exact ihn
    · simp only [Forest.remove, if_neg h, Forest.nids, List.mem_cons, List.mem_append, not_or]
      exact ⟨fun hk => h hk.symm, ihc, ihn⟩

theorem Forest.mem_nids_of_mem_remove (j x : Nat) (doc : Forest)
    (h : x ∈ (doc.remove j).nids) : x ∈ doc.nids := by
  induction doc with
  | nil => exact h
  | text d next ih => exact ih h
  | elem n tag attrs c next ihc ihn =>
    simp only [Forest.nids, List.mem_cons, List.mem_append]
    by_cases hn : n = j
    · simp only [Forest.remove, if_pos hn] at h
      exact Or.inr (Or.inr (ihn h))
    · simp only [Forest.remove, if_neg hn, Forest.nids, List.mem_cons, List.mem_append] at h
      rcases h with h | h | h
      · exact Or.inl h
      · exact Or.inr (Or.inl (ihc h))
      · exact Or.inr (Or.inr (ihn h))

theorem Forest.mem_nids_remove (j k : Nat) (doc : Forest) (hk : k ∈ doc.nids)
    (hanc : doc.isInclusiveAncestor j k = false) : k ∈ (doc.remove j).nids := by
  induction doc with
  | nil => exact hk
  | text d next ih => exact ih hk hanc
  | elem n tag attrs c next ihc ihn =>
    simp only [Forest.isInclusiveAncestor, Bool.or_eq_false_iff, Bool.and_eq_false_imp,
      decide_eq_true_eq, decide_eq_false_iff_not, not_or] at hanc
    obtain ⟨⟨h1, h2⟩, h3⟩ := hanc
    simp only [Forest.nids, List.mem_cons, List.mem_append] at hk
    by_cases hn : n = j
    · have h1 := h1 hn
      simp only [Forest.remove, if_pos hn]
      rcases hk with hk | hk | hk
      · exact absurd hk.symm h1.1
      · exact absurd hk h1.2
      · exact ihn hk h3
    · simp only [Forest.remove, if_neg hn, Forest.nids, List.mem_cons, List.mem_append]
      rcases hk with hk | hk | hk
      · exact Or.inl hk
      · exact Or.inr (Or.inl (ihc hk h2))
      · exact Or.inr (Or.inr (ihn hk h3))

theorem Forest.isInclusiveAncestor_remove (i j k : Nat) (doc : Forest)
    (h : doc.isInclusiveAncestor j k = false) :
    (doc.remove i).isInclusiveAncestor j k = false := by
  induction doc with
  | nil => rfl
  | text d next ih => exact ih h
  | elem n tag attrs c next ihc ihn =>
    simp only [Forest.isInclusiveAncestor, Bool.or_eq_false_iff, Bool.and_eq_false_imp,
      decide_eq_true_eq, decide_eq_false_iff_not, not_or] at h
    obtain ⟨⟨h1, h2⟩, h3⟩ := h
    by_cases hn : n = i
    · simp only [Forest.remove, if_pos hn]; exact ihn h3
    · simp only [Forest.remove, if_neg hn, Forest.isInclusiveAncestor, Bool.or_eq_false_iff,
        Bool.and_eq_false_imp, decide_eq_true_eq, decide_eq_false_iff_not, not_or]
      exact ⟨⟨fun hj => ⟨(h1 hj).1, fun hm => (h1 hj).2 (Forest.mem_nids_of_mem_remove i k c hm)⟩,
        ihc h2⟩, ihn h3⟩

theorem runTimers_not_mem (k : Nat) (ts : List Timer) : ∀ doc : Forest,
    k ∉ doc.nids → k ∉ (runTimers doc ts).nids := by
  induction ts with
  | nil => intro doc h; exact h
  | cons t ts ih =>
    intro doc h
    exact ih (doc.remove t.target) (fun hm => h (Forest.mem_nids_of_mem_remove _ _ _ hm))

theorem runTimers_removes (t : Timer) (ts : List Timer) (ht : t ∈ ts) : ∀ doc : Forest,
    t.target ∉ (runTimers doc ts).nids := by
  induction ts with
  | nil => simp at ht
  | cons a ts ih =>
    intro doc
    rcases List.mem_cons.1 ht with h | h
    · subst h
      exact runTimers_not_mem _ ts _ (Forest.not_mem_nids_remove _ _)
    · exact ih h _

theorem runTimers_keeps (k : Nat) (ts : List Timer) : ∀ doc : Forest, k ∈ doc.nids →
    (∀ t ∈ ts, doc.isInclusiveAncestor t.target k = false) → k ∈ (runTimers doc ts).nids := by
  induction ts with
  | nil => intro doc h _; exact h
  | cons a ts ih =>
    intro doc hk hanc
    refine ih (doc.remove a.target)
      (Forest.mem_nids_remove _ _ _ hk (hanc a (List.mem_cons_self _ _))) ?_
    intro t ht
    exact Forest.isInclusiveAncestor_remove _ _ _ _ (hanc t (List.mem_cons_of_mem _ ht))

theorem mem_firedTimers (ts : List Timer) (now : Nat) (t : Timer) :
    t ∈ firedTimers ts now ↔ t ∈ ts ∧ t.due ≤ now := by
  simp [firedTimers, List.mem_insertionSort, List.mem_filter]

theorem mem_toastTimers (doc : Forest) (t : Element) (ht : t ∈ doc.querySelectorAll isToast) :
    (⟨timerDelay (toastDelay t), t.nid⟩ : Timer) ∈ toastTimers doc :=
  List.mem_map.2 ⟨t, ht, rfl⟩

theorem Forest.nid_mem_of_mem_elements (doc : Forest) (e : Element) (h : e ∈ doc.elements) :
    e.nid ∈ doc.nids := by
  induction doc with
  | nil => simp [Forest.elements] at h
  | text d next ih => exact ih h
  | elem n tag attrs c next ihc ihn =>
    simp only [Forest.elements, List.mem_cons, List.mem_append] at h
    simp only [Forest.nids, List.mem_cons, List.mem_append]
    rcases h with h | h | h
    · subst h; exact Or.inl rfl
    · exact Or.inr (Or.inl (ihc h))
    · exact Or.inr (Or.inr (ihn h))

/-- A toast is out of the document once its own timer is due. -/
theorem toast_absent_of_due (doc : Forest) (t : Element) (ht : t ∈ doc.querySelectorAll isToast)
    (now : Nat) (hdue : timerDelay (toastDelay t) ≤ now) :
    (docAt doc now).inDocument t.nid = false := by
  have hm : (⟨timerDelay (toastDelay t), t.nid⟩ : Timer) ∈ firedTimers (toastTimers doc) now :=
    (mem_firedTimers _ _ _).2 ⟨mem_toastTimers doc t ht, hdue⟩
  have := runTimers_removes _ _ hm doc
  simpa [Forest.inDocument, docAt] using this

/-- A toast is in the document as long as neither its own timer nor the timer of a
toast around it is due. -/
theorem toast_present_of_not_due (doc : Forest) (t : Element)
    (ht : t ∈ doc.querySelectorAll isToast) (now : Nat)
    (hanc : ∀ a ∈ doc.querySelectorAll isToast,
      doc.isInclusiveAncestor a.nid t.nid = true → now < timerDelay (toastDelay a)) :
    (docAt doc now).inDocument t.nid = true := by
  have hk : t.nid ∈ doc.nids :=
    Forest.nid_mem_of_mem_elements doc t (List.mem_filter.1 ht).1
  have := runTimers_keeps t.nid (firedTimers (toastTimers doc) now) doc hk (by
    intro tm htm
    obtain ⟨hmem, hdue⟩ := (mem_firedTimers _ _ _).1 htm
    obtain ⟨a, ha, rfl⟩ := List.mem_map.1 hmem
    by_contra hc
    have hlt := hanc a ha (by simpa using hc)
    exact absurd hdue (not_le.2 hlt))
  simpa [Forest.inDocument, docAt] using this

/-! ## Lemmas on the toast delay -/

theorem toString_ne_empty (n : Nat) : toString n ≠ "" := by
  obtain ⟨l, hl, hne, _, _⟩ := toDigitsCore_spec (n + 1) n [] (Nat.lt_succ_self n)
  have hs : (toString n).data = l ++ [] := by
    show (Nat.repr n).data = _
    simp only [Nat.repr, Nat.toDigits, hl, List.asString]
  intro h
  rw [h] at hs
  simp at hs
  exact hne hs

theorem toastDelay_of_attr (t : Element) (s : String) (hs : s ≠ "")
    (h : t.getAttribute "data-timeout" = some s) : toastDelay t = parseInt s := by
  simp [toastDelay, h, jsOr, hs, toDOMString]

theorem toastDelay_default (t : Element) (h : t.getAttribute "data-timeout" = none) :
    toastDelay t = .finite false 4000 := by
  simp only [toastDelay, h, jsOr, toDOMString]
  decide

/-! ## Lemmas on the handlers -/

/-- The `change` handler does nothing when the id it looks up is not in the
document. -/
theorem colMapChange_unresolved (doc : Forest) (sel : Element) (value : String)
    (h : doc.getElementById (toDOMString (sel.dataset "target")) = none) :
    colMapChange doc sel value = .ok doc := by
  simp only [colMapChange, h]

/-- The `click` handler throws for every link without `href` attribute. -/
theorem skipLinkClick_of_no_href (page : Page) (sk : Element)
    (h : sk.getAttribute "href" = none) : skipLinkClick page sk = .error .typeError := by
  simp only [skipLinkClick, h]

/-! ## The claims -/

/-- C1. After the `change` handler of `import.js` has run for a control whose
`data-target` names an existing element `T` and whose value is `value`, the
handler has not thrown and `T` (the element that `getElementById` still finds
under that id, with the same identity) has text content `value` when `value` is
not empty, and the value of its own `data-original` attribute when `value` is
empty (the empty text when `T` has no such attribute). -/
theorem colMapChange_sets_target_text (doc : Forest) (hwf : doc.WellFormed)
    (sel : Element) (value key : String) (T : Element)
    (hkey : sel.dataset "target" = some key) (hT : doc.getElementById key = some T) :
    ∃ doc1 T1, colMapChange doc sel value = .ok doc1 ∧
      doc1.getElementById key = some T1 ∧ T1.nid = T.nid ∧
      (value ≠ "" → T1.textContent = value) ∧
      (value = "" → T1.textContent = (T.dataset "original").getD "") := by
  have hupd := Forest.getElementById_update key
    (Element.setTextContent (jsOr (some value) (T.dataset "original")))
    (fun e => by cases h : jsOr (some value) (T.dataset "original") <;> rfl) doc hwf T hT
  refine ⟨_, _, ?_, hupd, ?_, ?_, ?_⟩
  · simp only [colMapChange, hkey, toDOMString, hT]
  · cases h : jsOr (some value) (T.dataset "original") <;> rfl
  · intro hv
    simp [jsOr, hv, Element.setTextContent, Element.textContent, Forest.textContent]
  · intro hv
    subst hv
    cases ho : T.dataset "original" with
    | none => simp [jsOr, Element.setTextContent, Element.textContent, Forest.textContent]
    | some o =>
      by_cases hoe : o = ""
      · simp [jsOr, hoe, Element.setTextContent, Element.textContent, Forest.textContent]
      · simp [jsOr, hoe, Element.setTextContent, Element.textContent, Forest.textContent]

/-- C1 (witness). In `docColMap` the control names the label `lbl`; choosing the
value "Email" makes "Email" the text of the label. -/
theorem colMapChange_sets_target_text_witness :
    docColMap.WellFormed ∧
    ∃ doc1 T1, colMapChange docColMap selWithTarget "Email" = .ok doc1 ∧
      doc1.getElementById "lbl" = some T1 ∧ T1.nid = 2 ∧
      ("Email" ≠ "" → T1.textContent = "Email") ∧
      ("Email" = "" → T1.textContent = "Name") :=
  ⟨by decide,
    colMapChange_sets_target_text docColMap (by decide) selWithTarget "Email" "lbl"
      ⟨2, "b", [("id", "lbl"), ("data-original", "Name")], .text "Old" .nil⟩ (by decide) (by decide)⟩

/-- C3 (failing input). For `<div class="toast" data-timeout="abc">` the delay handed
to `setTimeout` is `NaN`, not 4000; the timer treats it as 0 ms and the toast is
out of the document at time 0. -/
theorem toastDelay_unparseable_is_nan :
    toastAbc ∈ (docOf toastAbc).querySelectorAll isToast ∧
    toastDelay toastAbc = .nan ∧
    timerDelay (toastDelay toastAbc) = 0 ∧
    (docAt (docOf toastAbc) 0).inDocument toastAbc.nid = false := by
  decide

/-- C4 (counterexample). The toast `<div class="toast" data-timeout="2147483648">`
carries the decimal string of the positive integer 2147483648, and is out of the
document at 1 ms already.  The inner toast of `<div class="toast"
data-timeout="500"><div class="toast" data-timeout="1000">Saved</div></div>`
carries the decimal string of 1000, and is out of the document at 600 ms. -/
theorem toast_lifetime_counterexample :
    ((docOf toastOverflow).WellFormed ∧
      toastOverflow ∈ (docOf toastOverflow).querySelectorAll isToast ∧
      toastOverflow.getAttribute "data-timeout" = some (toString 2147483648) ∧
      1 < 2147483648 ∧
      (docAt (docOf toastOverflow) 1).inDocument toastOverflow.nid = false) ∧
    ((docOf toastOuter500).WellFormed ∧
      toastInner1000 ∈ (docOf toastOuter500).querySelectorAll isToast ∧
      toastInner1000.getAttribute "data-timeout" = some (toString 1000) ∧
      600 < 1000 ∧
      (docAt (docOf toastOuter500) 600).inDocument toastInner1000.nid = false) := by
  decide

/-- C4 (amended). For a `.toast` element whose `data-timeout` is the decimal string
of an integer `N` (positive or zero), under the virtual clock started when the
script runs: the element is out of the document at every time after `N` ms; and
when `N < 2 ^ 31`, it is in the document at every time `now < N` at which no
other toast that contains it is due (`setTimeout` wraps delays of `2 ^ 31` ms and
more, and a toast leaves the document together with a toast around it). -/
theorem toast_lifetime (doc : Forest) (t : Element) (ht : t ∈ doc.querySelectorAll isToast)
    (N : Nat) (hattr : t.getAttribute "data-timeout" = some (toString N)) :
    (∀ now, N < now → (docAt doc now).inDocument t.nid = false) ∧
    (N < 2 ^ 31 → ∀ now, now < N →
      (∀ a ∈ doc.querySelectorAll isToast, a ≠ t →
        doc.isInclusiveAncestor a.nid t.nid = true → now < timerDelay (toastDelay a)) →
      (docAt doc now).inDocument t.nid = true) := by
  have hdelay : toastDelay t = JSNumber.ofNat false N := by
    rw [toastDelay_of_attr t _ (toString_ne_empty N) hattr, parseInt_toString]
  constructor
  · intro now hnow
    apply toast_absent_of_due doc t ht
    by_cases hlt : N < 2 ^ 31
    · rw [hdelay, timerDelay_ofNat N hlt]; exact le_of_lt hnow
    · have := timerDelay_lt (toastDelay t)
      omega
  · intro hlt now hnow hanc
    apply toast_present_of_not_due doc t ht
    intro a ha hcov
    by_cases hat : a = t
    · rw [hat, hdelay, timerDelay_ofNat N hlt]; exact hnow
    · exact hanc a ha hat hcov

/-- C4 (witness). The toast `<div class="toast" data-timeout="1000">` is in the
document at 999 ms and out of it at 1001 ms. -/
theorem toast_lifetime_witness :
    (docAt (docOf toast1000) 999).inDocument toast1000.nid = true ∧
    (docAt (docOf toast1000) 1001).inDocument toast1000.nid = false :=
  have h := toast_lifetime (docOf toast1000) toast1000 (by decide) 1000 (by decide)
  ⟨h.2 (by decide) 999 (by decide) (by decide), h.1 1001 (by decide)⟩

/-- C5 (counterexample). The inner toast of
`<div class="toast" data-timeout="1000"><div class="toast">Saved</div></div>` has no
`data-timeout` attribute, and is out of the document at 2000 ms, before 4000 ms. -/
theorem toast_default_nested_counterexample :
    (docOf toastOuter).WellFormed ∧
    toastInner ∈ (docOf toastOuter).querySelectorAll isToast ∧
    toastInner.getAttribute "data-timeout" = none ∧
    2000 < 4000 ∧
    (docAt (docOf toastOuter) 2000).inDocument toastInner.nid = false := by
  decide

/-- C5 (amended). For a `.toast` element without `data-timeout` attribute the
removal is scheduled with a delay of exactly 4000 ms; the element is out of the
document once 4000 ms have elapsed, and it is in the document at every time
`now < 4000` at which no other toast that contains it is due. -/
theorem toast_default_lifetime (doc : Forest) (t : Element)
    (ht : t ∈ doc.querySelectorAll isToast) (hattr : t.getAttribute "data-timeout" = none) :
    toastDelay t = .finite false 4000 ∧
    (⟨4000, t.nid⟩ : Timer) ∈ toastTimers doc ∧
    (∀ now, 4000 ≤ now → (docAt doc now).inDocument t.nid = false) ∧
    (∀ now, now < 4000 →
      (∀ a ∈ doc.querySelectorAll isToast, a ≠ t →
        doc.isInclusiveAncestor a.nid t.nid = true → now < timerDelay (toastDelay a)) →
      (docAt doc now).inDocument t.nid = true) := by
  have hdelay := toastDelay_default t hattr
  have htd : timerDelay (toastDelay t) = 4000 := by rw [hdelay]; decide
  refine ⟨hdelay, ?_, ?_, ?_⟩
  · have := mem_toastTimers doc t ht
    rwa [htd] at this
  · intro now hnow
    exact toast_absent_of_due doc t ht now (by rw [htd]; exact hnow)
  · intro now hnow hanc
    apply toast_present_of_not_due doc t ht
    intro a ha hcov
    by_cases hat : a = t
    · rw [hat, htd]; exact hnow
    · exact hanc a ha hat hcov

/-- C5 (witness). The toast `<div class="toast">Saved</div>` alone in its document
is scheduled at 4000 ms, in the document at 3999 ms and out of it at 4000 ms. -/
theorem toast_default_lifetime_witness :
    toastDelay toastDefault = .finite false 4000 ∧
    (docAt (docOf toastDefault) 3999).inDocument toastDefault.nid = true ∧
    (docAt (docOf toastDefault) 4000).inDocument toastDefault.nid = false :=
  have h := toast_default_lifetime (docOf toastDefault) toastDefault (by decide) (by decide)
  ⟨h.1, h.2.2.2 3999 (by decide) (by decide), h.2.2.1 4000 (by decide)⟩

/-- C6 (counterexample). On the page
`<a class="skip-link" href="#main">Skip</a><main id="main" hidden></main>` the
element with id `main` exists, but it is not rendered and cannot take the focus:
after the click it has `tabindex="-1"` and the link is still the active element. -/
theorem skipLinkClick_unfocusable_counterexample :
    (skipLink [("href", "#main")]).getAttribute "href" = some ("#" ++ "main") ∧
    skipPageHidden.doc.getElementById "main" =
      some ⟨2, "main", [("id", "main"), ("hidden", "")], .nil⟩ ∧
    skipLinkClick skipPageHidden (skipLink [("href", "#main")]) =
      .ok { doc := .elem 1 "a" [("class", "skip-link"), ("href", "#main")] (.text "Skip" .nil)
              (.elem 2 "main" [("id", "main"), ("hidden", ""), ("tabindex", "-1")] .nil .nil),
            activeElement := some 1,
            unfocusable := [2] } := by
  decide

/-- C6 (amended). When the `href` of a skip link is "#" followed by `x` and an
element with id `x` exists, the `click` handler does not throw, and afterwards
that element (still found under the id `x`, with the same identity) has the
attribute `tabindex` equal to "-1"; it is the active element of the document
when it can take the focus, and the active element is unchanged when it cannot. -/
theorem skipLinkClick_focuses_target (page : Page) (sk : Element) (x : String) (el : Element)
    (hhref : sk.getAttribute "href" = some ("#" ++ x))
    (hel : page.doc.getElementById x = some el) :
    ∃ page1 el1, skipLinkClick page sk = .ok page1 ∧
      page1.doc.getElementById x = some el1 ∧ el1.nid = el.nid ∧
      el1.getAttribute "tabindex" = some "-1" ∧
      (el.nid ∉ page.unfocusable → page1.activeElement = some el.nid) ∧
      (el.nid ∈ page.unfocusable → page1.activeElement = page.activeElement) := by
  have hupd := Forest.getElementById_update_attrs x el.nid (Element.setAttribute "tabindex" "-1")
    (fun e => getAttr_setAttr_of_ne e.attrs "tabindex" "-1" "id" (by decide))
    (fun _ => rfl) page.doc
  rw [hel] at hupd
  simp only [Option.map_some', if_true] at hupd
  refine ⟨Page.focus
      { page with doc := page.doc.update el.nid (Element.setAttribute "tabindex" "-1") } el.nid,
    Element.setAttribute "tabindex" "-1"
      ⟨el.nid, el.tag, el.attrs, el.children.update el.nid (Element.setAttribute "tabindex" "-1")⟩,
    ?_, ?_, rfl, ?_, ?_, ?_⟩
  · simp only [skipLinkClick, hhref, skipLinkTargetId_hash, hel]
  · unfold Page.focus; split <;> exact hupd
  · exact getAttr_setAttr_self _ _ _
  · intro h; simp only [Page.focus, if_neg h]
  · intro h; simp only [Page.focus, if_pos h]

/-- C6 (witness). Clicking `<a class="skip-link" href="#main">` focuses
`<main id="main">` and gives it `tabindex="-1"`. -/
theorem skipLinkClick_focuses_target_witness :
    ∃ page1 el1, skipLinkClick (skipPage [("href", "#main")]) (skipLink [("href", "#main")]) = .ok page1 ∧
      page1.doc.getElementById "main" = some el1 ∧ el1.nid = 2 ∧
      el1.getAttribute "tabindex" = some "-1" ∧
      (2 ∉ (skipPage [("href", "#main")]).unfocusable → page1.activeElement = some 2) ∧
      (2 ∈ (skipPage [("href", "#main")]).unfocusable → page1.activeElement = none) :=
  skipLinkClick_focuses_target (skipPage [("href", "#main")]) (skipLink [("href", "#main")]) "main"
    ⟨2, "main", [("id", "main")], .nil⟩ (by decide) (by decide)

/-- C7. When the `href` of a skip link is "#" followed by `x` and no element with
id `x` exists (`getElementById` finds none), the `click` handler does not throw
and leaves the page as it was: no attribute of any element changes and the active
element stays the same. -/
theorem skipLinkClick_without_target (page : Page) (sk : Element) (x : String)
    (hhref : sk.getAttribute "href" = some ("#" ++ x))
    (hnone : page.doc.getElementById x = none) :
    skipLinkClick page sk = .ok page := by
  simp only [skipLinkClick, hhref, skipLinkTargetId_hash, hnone]

/-- C7 (witness). Clicking `<a class="skip-link" href="#content">` on a page without
an element of id `content` changes nothing. -/
theorem skipLinkClick_without_target_witness :
    (skipPage [("href", "#content")]).doc.getElementById "content" = none ∧
    skipLinkClick (skipPage [("href", "#content")]) (skipLink [("href", "#content")]) =
      .ok (skipPage [("href", "#content")]) :=
  ⟨by decide,
    skipLinkClick_without_target (skipPage [("href", "#content")]) (skipLink [("href", "#content")])
      "content" (by decide) (by decide)⟩

/-- C8 (failing input). The link `<a class="skip-link">` has no `href` attribute:
its `click` handler raises a `TypeError`. -/
theorem skipLinkClick_missing_href_throws :
    skipLink [] ∈ (skipPage []).doc.querySelectorAll isSkipLink ∧
    (skipLink []).getAttribute "href" = none ∧
    skipLinkClick (skipPage []) (skipLink []) = .error .typeError := by
  decide

/-- C10 (counterexample). For `data-timeout="9007199254740993abc"` the digit prefix
has the value `2 ^ 53 + 1`, but the delay handed to `setTimeout` is the double
`2 ^ 53`, and the timer waits 0 ms. -/
theorem toastDelay_prefix_counterexample :
    toastHuge.getAttribute "data-timeout" = some ⟨"9007199254740993".data ++ "abc".data⟩ ∧
    (∀ c ∈ "9007199254740993".data, isDecimalDigit c = true) ∧
    (∀ c ∈ "abc".data, isDecimalDigit c = false) ∧
    decimalValue "9007199254740993".data = 9007199254740993 ∧
    toastDelay toastHuge = .finite false 9007199254740992 ∧
    timerDelay (toastDelay toastHuge) = 0 := by
  decide

/-- C10 (amended). For a `.toast` element whose `data-timeout` is a non-empty run of
decimal digits followed by characters that do not start with a digit, the delay
handed to `setTimeout` is the number value of the digit prefix and not the
default: it is exactly the base-10 value of the prefix when that value is below
`2 ^ 53` (above, it is rounded to a double), and the timer waits exactly that
many milliseconds when the value is below `2 ^ 31`. -/
theorem toastDelay_digit_prefix (t : Element) (ds rest : List Char) (hne : ds ≠ [])
    (hds : ∀ c ∈ ds, isDecimalDigit c = true)
    (hrest : ∀ c, rest.head? = some c → isDecimalDigit c = false)
    (hattr : t.getAttribute "data-timeout" = some ⟨ds ++ rest⟩) :
    toastDelay t = JSNumber.ofNat false (decimalValue ds) ∧
    (decimalValue ds < 2 ^ 53 → toastDelay t = .finite false (decimalValue ds)) ∧
    (decimalValue ds < 2 ^ 31 → timerDelay (toastDelay t) = decimalValue ds) := by
  have hs : (⟨ds ++ rest⟩ : String) ≠ "" := by
    intro h
    have := congrArg String.data h
    simp at this
    exact hne this.1
  have hdelay : toastDelay t = JSNumber.ofNat false (decimalValue ds) := by
    rw [toastDelay_of_attr t _ hs hattr, parseInt_digit_prefix ds rest hne hds hrest]
  refine ⟨hdelay, ?_, ?_⟩
  · intro h; rw [hdelay, JSNumber.ofNat_of_lt false _ h]
  · intro h; rw [hdelay, timerDelay_ofNat _ h]

/-- C10 (witness). For `data-timeout="12abc"` the delay is 12 and the timer waits
12 ms. -/
theorem toastDelay_digit_prefix_witness :
    toastDelay toast12abc = .finite false 12 ∧ timerDelay (toastDelay toast12abc) = 12 :=
  have h := toastDelay_digit_prefix toast12abc "12".data "abc".data (by decide) (by decide)
    (by decide) (by decide)
  ⟨h.2.1 (by decide), h.2.2 (by decide)⟩

end ExamGen
